import Mathlib

/-!
# Black-Scholes pricer and heat-map sweep: a verification development

Shallow embedding of `src/black_scholes.hpp` (the pricing formula) and of the numeric part of
`src/main.cpp` (`linspace`, `recompute_heatmaps` and the widget section of the frame loop).

Numeric conventions.  `double` and `float` values are read as real numbers and every arithmetic
operation as the exact operation on `ℝ`; the conversions `float(·)` and the implicit widening
`float → double` are therefore the identity and are kept as named functions so that the
definitions can be compared with the source line by line.  `std::erf` is the error function
`erf x = 2/√π · ∫₀ˣ exp (-t²) dt`.  `int` grid sizes and indices are natural numbers (the
slider keeps the grid size inside `5..30`).  An out-of-range access of a `std::vector` is
undefined behaviour in the source and is the result `none` here.
-/

open Real

namespace BlackScholes

noncomputable section

/-! ## `black_scholes.hpp` -/

/-- The struct `BlackScholesInputs` with its default member initialisers. -/
structure BlackScholesInputs where
  S : ℝ := 100.0
  K : ℝ := 100.0
  T : ℝ := 1.0
  v : ℝ := 0.2
  r : ℝ := 0.05

/-- The struct `BlackScholesOutputs` with its default member initialisers. -/
structure BlackScholesOutputs where
  call : ℝ := 0.0
  put : ℝ := 0.0
  call_delta : ℝ := 0.0
  put_delta : ℝ := 0.0
  gamma : ℝ := 0.0

/-- The library function `std::erf`, read over the reals. -/
def erf (x : ℝ) : ℝ :=
  2 / Real.sqrt Real.pi * ∫ t in (0 : ℝ)..x, Real.exp (-(t ^ 2))

/-- The library function `std::max(a, b)`, which is `(a < b) ? b : a`. -/
def stdMax (a b : ℝ) : ℝ := if a < b then b else a

/-- The constant `INV_SQRT_2PI` of `norm_pdf`, a decimal literal in the source. -/
def INV_SQRT_2PI : ℝ := 0.39894228040143267794

/-- The function `norm_pdf`. -/
def norm_pdf (x : ℝ) : ℝ :=
  INV_SQRT_2PI * Real.exp (-0.5 * x * x)

/-- The function `norm_cdf`: the normal distribution function through `erf`. -/
def norm_cdf (x : ℝ) : ℝ :=
  0.5 * (1.0 + erf (x / Real.sqrt 2.0))

/-- The function `black_scholes_price`. -/
def black_scholes_price (inp : BlackScholesInputs) : BlackScholesOutputs :=
  let S := stdMax inp.S 1e-12
  let K := stdMax inp.K 1e-12
  let T := stdMax inp.T 1e-12
  let v := stdMax inp.v 1e-12
  let r := inp.r
  let sqrtT := Real.sqrt T
  let d1 := (Real.log (S / K) + (r + 0.5 * v * v) * T) / (v * sqrtT)
  let d2 := d1 - v * sqrtT
  let disc := Real.exp (-r * T)
  let call := S * norm_cdf d1 - K * disc * norm_cdf d2
  let put := K * disc * norm_cdf (-d2) - S * norm_cdf (-d1)
  let call_delta := norm_cdf d1
  let put_delta := call_delta - 1.0
  let gamma := norm_pdf d1 / (S * v * sqrtT)
  { call := call, put := put, call_delta := call_delta, put_delta := put_delta, gamma := gamma }

/-! ### `black_scholes_price` with guarded primitives

The same computation with every partial primitive (`/`, `std::log`, `std::sqrt`) guarded: a zero
divisor, a non-positive argument of the logarithm or a negative argument of the square root stops
the evaluation with an error. -/

/-- The arithmetic faults an evaluation of the pricing formula could run into. -/
inductive ArithFault where
  | divByZero
  | logNonPositive
  | sqrtNegative
  deriving DecidableEq, Repr

/-- Division that faults on a zero divisor. -/
def checkedDiv (x y : ℝ) : Except ArithFault ℝ :=
  if y = 0 then .error .divByZero else .ok (x / y)

/-- Logarithm that faults on a non-positive argument. -/
def checkedLog (x : ℝ) : Except ArithFault ℝ :=
  if x ≤ 0 then .error .logNonPositive else .ok (Real.log x)

/-- Square root that faults on a negative argument. -/
def checkedSqrt (x : ℝ) : Except ArithFault ℝ :=
  if x < 0 then .error .sqrtNegative else .ok (Real.sqrt x)

/-- The function `norm_cdf` over the guarded primitives. -/
def norm_cdf_checked (x : ℝ) : Except ArithFault ℝ := do
  let s ← checkedSqrt 2.0
  let q ← checkedDiv x s
  pure (0.5 * (1.0 + erf q))

/-- The function `black_scholes_price` over the guarded primitives. -/
def black_scholes_price_checked (inp : BlackScholesInputs) :
    Except ArithFault BlackScholesOutputs := do
  let S := stdMax inp.S 1e-12
  let K := stdMax inp.K 1e-12
  let T := stdMax inp.T 1e-12
  let v := stdMax inp.v 1e-12
  let r := inp.r
  let sqrtT ← checkedSqrt T
  let ratio ← checkedDiv S K
  let lg ← checkedLog ratio
  let d1 ← checkedDiv (lg + (r + 0.5 * v * v) * T) (v * sqrtT)
  let d2 := d1 - v * sqrtT
  let disc := Real.exp (-r * T)
  let n1 ← norm_cdf_checked d1
  let n2 ← norm_cdf_checked d2
  let m2 ← norm_cdf_checked (-d2)
  let m1 ← norm_cdf_checked (-d1)
  let call := S * n1 - K * disc * n2
  let put := K * disc * m2 - S * m1
  let call_delta ← norm_cdf_checked d1
  let put_delta := call_delta - 1.0
  let gamma ← checkedDiv (norm_pdf d1) (S * v * sqrtT)
  pure { call := call, put := put, call_delta := call_delta, put_delta := put_delta,
         gamma := gamma }

/-! ## `main.cpp` -/

/-- The conversion `float(x)` of a `double`; the identity in the real-number reading. -/
def toFloat (x : ℝ) : ℝ := x

/-- The implicit widening of a `float` to `double`; exact. -/
def toDouble (x : ℝ) : ℝ := x

/-- The conversion `float(k)` of an `int`. -/
def intToFloat (k : ℤ) : ℝ := (k : ℝ)

/-- The function `linspace`: a zero-initialised vector of `n` elements, filled either by the
`n == 1` branch or by the loop `x[i] = a + step * float(i)`. -/
def linspace (a b : ℝ) (n : ℕ) : List ℝ :=
  let x : List ℝ := List.replicate n 0
  if n = 1 then x.set 0 a
  else
    let step := (b - a) / intToFloat ((n : ℤ) - 1)
    (List.range n).foldl (fun x i => x.set i (a + step * intToFloat (i : ℤ))) x

/-- The variables of `main` captured by the lambda `recompute_heatmaps`; `inp` is the variable
`in` of the source. -/
structure AppState where
  inp : BlackScholesInputs
  heatN : ℕ
  spot_min : ℝ
  spot_max : ℝ
  vol_min : ℝ
  vol_max : ℝ
  lock_strike_for_heatmap : Bool
  spot_axis : List ℝ
  vol_axis : List ℝ
  call_map : List ℝ
  put_map : List ℝ

/-- The read `xs[i]` of a vector; out of range is undefined behaviour, here `none`. -/
def readAt (xs : List ℝ) (i : ℕ) : Option ℝ := xs[i]?

/-- The write `xs[i] = x` into a vector; out of range is undefined behaviour, here `none`. -/
def writeAt (xs : List ℝ) (i : ℕ) (x : ℝ) : Option (List ℝ) :=
  if i < xs.length then some (xs.set i x) else none

/-- The parameter set `tmp` that the body of the inner loop of `recompute_heatmaps` prices,
given the two axis entries it has read. -/
def cellInputs (st : AppState) (s v : ℝ) : BlackScholesInputs :=
  let tmp := st.inp
  let tmp := { tmp with S := toDouble s }
  let tmp := { tmp with v := toDouble v }
  if !st.lock_strike_for_heatmap then { tmp with K := st.inp.K } else tmp

/-- The body of the inner loop of `recompute_heatmaps` for row `yi` and column `xi`. -/
def heatmapCell (yi : ℕ) (st : AppState) (xi : ℕ) : Option AppState := do
  let s ← readAt st.spot_axis xi
  let v ← readAt st.vol_axis yi
  let out := black_scholes_price (cellInputs st s v)
  let cm ← writeAt st.call_map (yi * st.heatN + xi) (toFloat out.call)
  let pm ← writeAt st.put_map (yi * st.heatN + xi) (toFloat out.put)
  pure { st with call_map := cm, put_map := pm }

/-- The inner loop `for (xi = 0; xi < heatN; ++xi)` of `recompute_heatmaps`. -/
def heatmapRow (st : AppState) (yi : ℕ) : Option AppState :=
  (List.range st.heatN).foldlM (heatmapCell yi) st

/-- The lambda `recompute_heatmaps`. -/
def recompute_heatmaps (st : AppState) : Option AppState :=
  let st := { st with spot_axis := linspace st.spot_min st.spot_max st.heatN }
  let st := { st with vol_axis := linspace st.vol_min st.vol_max st.heatN }
  (List.range st.heatN).foldlM heatmapRow st

/-- The member function `std::vector<float>::resize(n)`: truncate, or pad with zeros. -/
def resize (xs : List ℝ) (n : ℕ) : List ℝ :=
  xs.take n ++ List.replicate (n - xs.length) 0

/-- The state of `main` when the frame loop is entered, before the first call of
`recompute_heatmaps`. -/
def startState : AppState :=
  let inp : BlackScholesInputs := {}
  let heatN : ℕ := 10
  { inp := inp
    heatN := heatN
    spot_min := toFloat (inp.S * 0.8)
    spot_max := toFloat (inp.S * 1.2)
    vol_min := toFloat (inp.v * 0.5)
    vol_max := toFloat (inp.v * 1.5)
    lock_strike_for_heatmap := true
    spot_axis := List.replicate heatN 0
    vol_axis := List.replicate heatN 0
    call_map := List.replicate (heatN * heatN) 0
    put_map := List.replicate (heatN * heatN) 0 }

/-- What the widgets of the sidebar report in one frame: for a value widget `some x` when the
user set the value to `x` in this frame (the widget then returns `true`), and `none` when the
widget was left alone; for the check box and the button whether it was clicked. -/
structure FrameEvents where
  input_S : Option ℝ := none
  input_K : Option ℝ := none
  input_T : Option ℝ := none
  input_v : Option ℝ := none
  input_r : Option ℝ := none
  slider_heatN : Option ℕ := none
  input_spot_min : Option ℝ := none
  input_spot_max : Option ℝ := none
  slider_vol_min : Option ℝ := none
  slider_vol_max : Option ℝ := none
  checkbox_lock : Bool := false
  button_recompute : Bool := false

/-- A value widget: the new content of the variable it points to. -/
def widgetValue {α : Type} (e : Option α) (old : α) : α := e.getD old

/-- A value widget: its return value. -/
def widgetChanged {α : Type} (e : Option α) : Bool := e.isSome

/-- The slider "Grid size" is created with the bounds `5` and `30`. -/
def SliderInRange (ev : FrameEvents) : Prop :=
  ∀ n, ev.slider_heatN = some n → 5 ≤ n ∧ n ≤ 30

/-- The value widgets of the sidebar, in source order: each writes through its pointer. -/
def applyWidgets (st : AppState) (ev : FrameEvents) : AppState :=
  { st with
    inp :=
      { S := widgetValue ev.input_S st.inp.S
        K := widgetValue ev.input_K st.inp.K
        T := widgetValue ev.input_T st.inp.T
        v := widgetValue ev.input_v st.inp.v
        r := widgetValue ev.input_r st.inp.r }
    heatN := widgetValue ev.slider_heatN st.heatN
    spot_min := widgetValue ev.input_spot_min st.spot_min
    spot_max := widgetValue ev.input_spot_max st.spot_max
    vol_min := widgetValue ev.slider_vol_min st.vol_min
    vol_max := widgetValue ev.slider_vol_max st.vol_max }

/-- The flag `changed` after the ten `changed |= ...` lines. -/
def changedFlag (ev : FrameEvents) : Bool :=
  false || widgetChanged ev.input_S || widgetChanged ev.input_K || widgetChanged ev.input_T
    || widgetChanged ev.input_v || widgetChanged ev.input_r || widgetChanged ev.slider_heatN
    || widgetChanged ev.input_spot_min || widgetChanged ev.input_spot_max
    || widgetChanged ev.slider_vol_min || widgetChanged ev.slider_vol_max

/-- The two lines `if (min > max) std::swap(min, max)`. -/
def swapRanges (st : AppState) : AppState :=
  let st := if st.spot_min > st.spot_max then
      { st with spot_min := st.spot_max, spot_max := st.spot_min } else st
  if st.vol_min > st.vol_max then
      { st with vol_min := st.vol_max, vol_max := st.vol_min } else st

/-- The check box "Lock strike for heatmap". -/
def applyCheckbox (st : AppState) (ev : FrameEvents) : AppState :=
  if ev.checkbox_lock then
    { st with lock_strike_for_heatmap := !st.lock_strike_for_heatmap } else st

/-- The four `resize` calls of the `if (changed)` block. -/
def resizeBuffers (st : AppState) : AppState :=
  { st with
    spot_axis := resize st.spot_axis st.heatN
    vol_axis := resize st.vol_axis st.heatN
    call_map := resize st.call_map (st.heatN * st.heatN)
    put_map := resize st.put_map (st.heatN * st.heatN) }

/-- The sidebar part of one pass through the frame loop: the widgets, the two swaps, the check
box, the button (which calls `recompute_heatmaps` at once) and then the `if (changed)` block
(which resizes the buffers and calls `recompute_heatmaps`). -/
def frame (st : AppState) (ev : FrameEvents) : Option AppState := do
  let st := applyCheckbox (swapRanges (applyWidgets st ev)) ev
  let st ← if ev.button_recompute then recompute_heatmaps st else pure st
  if changedFlag ev then recompute_heatmaps (resizeBuffers st) else pure st

/-- The states in which the frame loop can be: the state after the call of
`recompute_heatmaps` in front of the loop, and every state a frame leads to. -/
inductive Reachable : AppState → Prop where
  | start {s : AppState} : recompute_heatmaps startState = some s → Reachable s
  | next {s t : AppState} {ev : FrameEvents} :
      Reachable s → SliderInRange ev → frame s ev = some t → Reachable t

/-- The buffer-size invariant: the axes hold `heatN` elements, the maps `heatN * heatN`. -/
def SizesOk (st : AppState) : Prop :=
  st.spot_axis.length = st.heatN ∧ st.vol_axis.length = st.heatN ∧
  st.call_map.length = st.heatN * st.heatN ∧ st.put_map.length = st.heatN * st.heatN

/-! ### Specification vocabulary for the sweep -/

/-- What `recompute_heatmaps` stores in `call_map[idx]`: the call price of the cell in row
`idx / heatN` (volatility axis) and column `idx % heatN` (spot axis). -/
def cellCall (st : AppState) (idx : ℕ) : ℝ :=
  toFloat (black_scholes_price (cellInputs st (st.spot_axis.getD (idx % st.heatN) 0)
    (st.vol_axis.getD (idx / st.heatN) 0))).call

/-- What `recompute_heatmaps` stores in `put_map[idx]`. -/
def cellPut (st : AppState) (idx : ℕ) : ℝ :=
  toFloat (black_scholes_price (cellInputs st (st.spot_axis.getD (idx % st.heatN) 0)
    (st.vol_axis.getD (idx / st.heatN) 0))).put

/-- The buffer `new` is the buffer `old` with the entries `lo ≤ idx < hi` overwritten by
`F idx`. -/
def FilledFrom (old new : List ℝ) (lo hi : ℕ) (F : ℕ → ℝ) : Prop :=
  new.length = old.length ∧
  ∀ idx, new[idx]? = if lo ≤ idx ∧ idx < hi then some (F idx) else old[idx]?

/-- The four buffers of a state, which is all that a sweep writes. -/
def buffers (st : AppState) : List ℝ × List ℝ × List ℝ × List ℝ :=
  (st.spot_axis, st.vol_axis, st.call_map, st.put_map)

/-! ## Facts about `erf` -/

/-- The integral defining `erf` is an odd function of its upper limit. -/
theorem gauss_integral_neg (x : ℝ) :
    (∫ t in (0 : ℝ)..(-x), Real.exp (-(t ^ 2))) = -∫ t in (0 : ℝ)..x, Real.exp (-(t ^ 2)) := by
  have h := intervalIntegral.integral_comp_neg (a := 0) (b := x) (fun t : ℝ => Real.exp (-(t ^ 2)))
  simp only [neg_sq, neg_zero] at h
  rw [h, intervalIntegral.integral_symm]

theorem erf_neg (x : ℝ) : erf (-x) = -erf x := by
  unfold erf
  rw [gauss_integral_neg]
  ring

theorem stdMax_eq_max (a b : ℝ) : stdMax a b = max a b := by
  unfold stdMax
  split_ifs with h
  · exact (max_eq_right h.le).symm
  · exact (max_eq_left (not_lt.mp h)).symm

theorem stdMax_idem (a b : ℝ) : stdMax (stdMax a b) b = stdMax a b := by
  simp [stdMax_eq_max]

theorem eps_pos : (0 : ℝ) < 1e-12 := by norm_num

theorem stdMax_eps_pos (a : ℝ) : 0 < stdMax a 1e-12 := by
  rw [stdMax_eq_max]
  exact lt_max_of_lt_right eps_pos

theorem norm_cdf_add_neg (x : ℝ) : norm_cdf x + norm_cdf (-x) = 1 := by
  unfold norm_cdf
  rw [neg_div, erf_neg]
  norm_num
  ring

/-- Put-call parity on the clamped values, stated with `stdMax` as the code computes them. -/
theorem parity_stdMax (inp : BlackScholesInputs) :
    (black_scholes_price inp).call - (black_scholes_price inp).put =
      stdMax inp.S 1e-12 - stdMax inp.K 1e-12 * Real.exp (-inp.r * stdMax inp.T 1e-12) := by
  simp only [black_scholes_price]
  set d1 := (Real.log (stdMax inp.S 1e-12 / stdMax inp.K 1e-12) +
      (inp.r + 0.5 * stdMax inp.v 1e-12 * stdMax inp.v 1e-12) * stdMax inp.T 1e-12) /
      (stdMax inp.v 1e-12 * Real.sqrt (stdMax inp.T 1e-12)) with hd1
  set d2 := d1 - stdMax inp.v 1e-12 * Real.sqrt (stdMax inp.T 1e-12) with hd2
  have h1 := norm_cdf_add_neg d1
  have h2 := norm_cdf_add_neg d2
  have e1 : norm_cdf (-d1) = 1 - norm_cdf d1 := by linarith
  have e2 : norm_cdf (-d2) = 1 - norm_cdf d2 := by linarith
  rw [e1, e2]
  ring

/-- Claim C1, as amended: for every input the prices satisfy put-call parity on the clamped
values, `call - put = max(S,1e-12) - max(K,1e-12) * exp(-r * max(T,1e-12))`; hence for every
input whose `S`, `K` and `T` are at least `1e-12` (any `v`, any `r`)
`call - put = S - K * exp(-r*T)`. -/
theorem put_call_parity (inp : BlackScholesInputs) :
    ((black_scholes_price inp).call - (black_scholes_price inp).put =
        max inp.S 1e-12 - max inp.K 1e-12 * Real.exp (-inp.r * max inp.T 1e-12)) ∧
    (1e-12 ≤ inp.S → 1e-12 ≤ inp.K → 1e-12 ≤ inp.T →
      (black_scholes_price inp).call - (black_scholes_price inp).put =
        inp.S - inp.K * Real.exp (-inp.r * inp.T)) := by
  have h := parity_stdMax inp
  simp only [stdMax_eq_max] at h
  refine ⟨h, fun hS hK hT => ?_⟩
  rw [h, max_eq_left hS, max_eq_left hK, max_eq_left hT]

/-- Witness of `put_call_parity` at the default input. -/
theorem put_call_parity_witness :
    (black_scholes_price {}).call - (black_scholes_price {}).put =
      (100.0 : ℝ) - 100.0 * Real.exp (-0.05 * 1.0) :=
  (put_call_parity {}).2 (by norm_num) (by norm_num) (by norm_num)

/-- Claim C1 as stated fails: the input `S = 5e-13`, `K = T = v = 1`, `r = 0` has
`S, K, T, v > 0`, but `S` is clamped to `1e-12`, so that `call - put = 1e-12 - 1`, which is not
`S - K * exp(-r*T) = 5e-13 - 1`. -/
theorem put_call_parity_fails_below_epsilon :
    (0 : ℝ) < 5e-13 ∧ (0 : ℝ) < 1 ∧
    (black_scholes_price { S := 5e-13, K := 1, T := 1, v := 1, r := 0 }).call -
      (black_scholes_price { S := 5e-13, K := 1, T := 1, v := 1, r := 0 }).put ≠
        (5e-13 : ℝ) - 1 * Real.exp (-0 * 1) := by
  refine ⟨by norm_num, by norm_num, ?_⟩
  rw [parity_stdMax]
  simp only [stdMax_eq_max]
  norm_num

theorem checkedDiv_ok (x : ℝ) {y : ℝ} (h : y ≠ 0) : checkedDiv x y = .ok (x / y) := by
  simp [checkedDiv, h]

theorem checkedLog_ok {x : ℝ} (h : 0 < x) : checkedLog x = .ok (Real.log x) := by
  simp [checkedLog, not_le.mpr h]

theorem checkedSqrt_ok {x : ℝ} (h : 0 ≤ x) : checkedSqrt x = .ok (Real.sqrt x) := by
  simp [checkedSqrt, not_lt.mpr h]

theorem except_ok_bind {α β : Type} (a : α) (f : α → Except ArithFault β) :
    (Except.ok a >>= f) = f a := rfl

theorem except_pure {α : Type} (a : α) : (pure a : Except ArithFault α) = Except.ok a := rfl

theorem norm_cdf_checked_ok (x : ℝ) : norm_cdf_checked x = .ok (norm_cdf x) := by
  have h2 : (0 : ℝ) ≤ 2.0 := by norm_num
  have hs : Real.sqrt 2.0 ≠ 0 := (Real.sqrt_pos.mpr (by norm_num)).ne'
  simp only [norm_cdf_checked, checkedSqrt_ok h2, except_ok_bind, checkedDiv_ok x hs, norm_cdf,
    except_pure]

/-- Claim C5: for every input, after clamping the argument `S/K` of the logarithm and the
argument `T` of the square root are strictly positive and the divisors `v * sqrt T`,
`S * v * sqrt T` and `K` are non-zero; the evaluation over the guarded primitives therefore never
faults and returns the value of `black_scholes_price`. -/
theorem guarded_arithmetic (inp : BlackScholesInputs) :
    0 < stdMax inp.S 1e-12 / stdMax inp.K 1e-12 ∧
    0 < stdMax inp.T 1e-12 ∧
    stdMax inp.v 1e-12 * Real.sqrt (stdMax inp.T 1e-12) ≠ 0 ∧
    stdMax inp.S 1e-12 * stdMax inp.v 1e-12 * Real.sqrt (stdMax inp.T 1e-12) ≠ 0 ∧
    stdMax inp.K 1e-12 ≠ 0 ∧
    black_scholes_price_checked inp = .ok (black_scholes_price inp) := by
  have hS := stdMax_eps_pos inp.S
  have hK := stdMax_eps_pos inp.K
  have hT := stdMax_eps_pos inp.T
  have hv := stdMax_eps_pos inp.v
  have hq := Real.sqrt_pos.mpr hT
  have hratio : 0 < stdMax inp.S 1e-12 / stdMax inp.K 1e-12 := div_pos hS hK
  have hd1 : stdMax inp.v 1e-12 * Real.sqrt (stdMax inp.T 1e-12) ≠ 0 := (mul_pos hv hq).ne'
  have hg : stdMax inp.S 1e-12 * stdMax inp.v 1e-12 * Real.sqrt (stdMax inp.T 1e-12) ≠ 0 :=
    (mul_pos (mul_pos hS hv) hq).ne'
  refine ⟨hratio, hT, hd1, hg, hK.ne', ?_⟩
  simp only [black_scholes_price_checked, checkedSqrt_ok hT.le, except_ok_bind,
    checkedDiv_ok _ hK.ne', checkedLog_ok hratio, checkedDiv_ok _ hd1, checkedDiv_ok _ hg,
    norm_cdf_checked_ok, except_pure, black_scholes_price]

/-- The guards are real: a zero divisor and a zero argument of the logarithm fault. -/
theorem guards_fault :
    checkedDiv 1 0 = .error .divByZero ∧ checkedLog 0 = .error .logNonPositive ∧
    checkedSqrt (-1) = .error .sqrtNegative := by
  refine ⟨by simp [checkedDiv], by simp [checkedLog], by simp [checkedSqrt]⟩

/-! ## `linspace` -/

/-- The loop `for (i = 0; i < k; ++i) x[i] = f i` on a vector: length and content. -/
theorem foldl_set_range (f : ℕ → ℝ) (k : ℕ) (xs : List ℝ) :
    ((List.range k).foldl (fun x j => x.set j (f j)) xs).length = xs.length ∧
    ∀ i, ((List.range k).foldl (fun x j => x.set j (f j)) xs)[i]? =
      if i < k ∧ i < xs.length then some (f i) else xs[i]? := by
  induction k with
  | zero => simp
  | succ k ih =>
    obtain ⟨hlen, hget⟩ := ih
    rw [List.range_succ, List.foldl_append]
    simp only [List.foldl_cons, List.foldl_nil, List.length_set]
    refine ⟨hlen, fun i => ?_⟩
    rw [List.getElem?_set, hget i, hlen]
    by_cases hik : k = i
    · subst hik
      by_cases hk : k < xs.length
      · simp [hk]
      · simp [hk, List.getElem?_eq_none (not_lt.mp hk)]
    · by_cases hi : i < xs.length
      · have h1 : (i < k + 1) ↔ (i < k) := by omega
        simp [hik, hi, h1]
      · simp [hik, hi]

theorem linspace_length (a b : ℝ) (n : ℕ) : (linspace a b n).length = n := by
  unfold linspace
  split_ifs with h
  · simp
  · simp only []
    rw [(foldl_set_range _ n _).1]
    simp

/-- A loop over `0 .. n-1` whose every step succeeds and re-establishes an invariant. -/
theorem foldlM_range_some {σ : Type} (f : σ → ℕ → Option σ) (P : ℕ → σ → Prop) (n : ℕ)
    (s0 : σ) (h0 : P 0 s0)
    (hstep : ∀ k s, k < n → P k s → ∃ s', f s k = some s' ∧ P (k + 1) s') :
    ∃ s', (List.range n).foldlM f s0 = some s' ∧ P n s' := by
  induction n with
  | zero => exact ⟨s0, by simp, h0⟩
  | succ n ih =>
    obtain ⟨s1, h1, hP1⟩ := ih (fun k s hk hP => hstep k s (by omega) hP)
    obtain ⟨s2, h2, hP2⟩ := hstep n s1 (by omega) hP1
    refine ⟨s2, ?_, hP2⟩
    rw [List.range_succ, List.foldlM_append, h1]
    simp [h2]

/-- A loop over `0 .. n-1` whose step `k0` fails after successful steps `0 .. k0-1`. -/
theorem foldlM_range_none {σ : Type} (f : σ → ℕ → Option σ) (P : ℕ → σ → Prop) (n k0 : ℕ)
    (hk0 : k0 < n) (s0 : σ) (h0 : P 0 s0)
    (hstep : ∀ k s, k < k0 → P k s → ∃ s', f s k = some s' ∧ P (k + 1) s')
    (hfail : ∀ s, P k0 s → f s k0 = none) :
    (List.range n).foldlM f s0 = none := by
  obtain ⟨s1, h1, hP1⟩ := foldlM_range_some f P k0 s0 h0 hstep
  have hn : n = (k0 + 1) + (n - (k0 + 1)) := by omega
  rw [hn, List.range_add, List.foldlM_append, List.range_succ, List.foldlM_append, h1]
  simp [hfail s1 hP1]

theorem writeAt_some {xs : List ℝ} {i : ℕ} (x : ℝ) (h : i < xs.length) :
    writeAt xs i x = some (xs.set i x) := by
  simp [writeAt, h]

theorem writeAt_none {xs : List ℝ} {i : ℕ} (x : ℝ) (h : xs.length ≤ i) :
    writeAt xs i x = none := by
  simp [writeAt, not_lt.mpr h]

theorem filledFrom_refl (xs : List ℝ) (lo : ℕ) (F : ℕ → ℝ) : FilledFrom xs xs lo lo F := by
  refine ⟨rfl, fun idx => ?_⟩
  have : ¬ (lo ≤ idx ∧ idx < lo) := by omega
  simp [this]

theorem filledFrom_set {old cur : List ℝ} {lo hi : ℕ} {F : ℕ → ℝ}
    (h : FilledFrom old cur lo hi F) (hlo : lo ≤ hi) (hhi : hi < cur.length) :
    FilledFrom old (cur.set hi (F hi)) lo (hi + 1) F := by
  obtain ⟨hlen, hget⟩ := h
  refine ⟨by simpa using hlen, fun idx => ?_⟩
  rw [List.getElem?_set, hget idx]
  by_cases e : hi = idx
  · subst e
    simp [hhi, hlo]
  · have h1 : (lo ≤ idx ∧ idx < hi + 1) ↔ (lo ≤ idx ∧ idx < hi) := by omega
    simp [e, h1]

theorem filledFrom_trans {old mid new : List ℝ} {a b c : ℕ} {F : ℕ → ℝ}
    (h1 : FilledFrom old mid a b F) (h2 : FilledFrom mid new b c F) (hab : a ≤ b)
    (hbc : b ≤ c) : FilledFrom old new a c F := by
  obtain ⟨l1, g1⟩ := h1
  obtain ⟨l2, g2⟩ := h2
  refine ⟨l2.trans l1, fun idx => ?_⟩
  rw [g2 idx]
  by_cases hb : b ≤ idx ∧ idx < c
  · have : a ≤ idx ∧ idx < c := by omega
    simp [hb, this]
  · rw [if_neg hb, g1 idx]
    by_cases ha : a ≤ idx ∧ idx < b
    · have : a ≤ idx ∧ idx < c := by omega
      simp [ha, this]
    · have : ¬ (a ≤ idx ∧ idx < c) := by omega
      simp [ha, this]

/-- The parameter set of a cell is the base input with `S` and `v` replaced; `K`, `T` and `r`
are those of the base input whatever the state of the check box. -/
theorem cellInputs_eq (st : AppState) (s v : ℝ) :
    cellInputs st s v = { S := s, K := st.inp.K, T := st.inp.T, v := v, r := st.inp.r } := by
  unfold cellInputs toDouble
  cases st.lock_strike_for_heatmap <;> simp

theorem cell_index_mod {n xi : ℕ} (yi : ℕ) (hx : xi < n) : (yi * n + xi) % n = xi := by
  rw [Nat.add_comm, Nat.mul_comm, Nat.add_mul_mod_self_left, Nat.mod_eq_of_lt hx]

theorem cell_index_div {n xi : ℕ} (yi : ℕ) (hx : xi < n) : (yi * n + xi) / n = yi := by
  rw [Nat.add_comm, Nat.mul_comm, Nat.add_mul_div_left _ _ (by omega), Nat.div_eq_of_lt hx,
    Nat.zero_add]

/-- One pass through the body of the inner loop, when both axis reads are in range: the two
writes, each of which may be out of range. -/
theorem heatmapCell_eq (s0 : AppState) (cm pm : List ℝ) (yi xi : ℕ) (hx : xi < s0.heatN)
    (hxl : s0.heatN ≤ s0.spot_axis.length) (hyl : yi < s0.vol_axis.length) :
    heatmapCell yi { s0 with call_map := cm, put_map := pm } xi =
      (writeAt cm (yi * s0.heatN + xi) (cellCall s0 (yi * s0.heatN + xi))).bind (fun cm' =>
        (writeAt pm (yi * s0.heatN + xi) (cellPut s0 (yi * s0.heatN + xi))).bind (fun pm' =>
          some { s0 with call_map := cm', put_map := pm' })) := by
  have h1 : s0.spot_axis[xi]? = some (s0.spot_axis.getD xi 0) := by
    have hlt : xi < s0.spot_axis.length := by omega
    simp [List.getElem?_eq_getElem hlt]
  have h2 : s0.vol_axis[yi]? = some (s0.vol_axis.getD yi 0) := by
    simp [List.getElem?_eq_getElem hyl]
  simp only [heatmapCell, readAt, h1, h2, cellCall, cellPut, cell_index_mod yi hx,
    cell_index_div yi hx, cellInputs_eq, Option.bind_eq_bind, Option.some_bind, Option.pure_def]

/-- The inner loop for row `yi`, on buffers that reach to the end of the row: it succeeds and
overwrites exactly the entries of the row. -/
theorem heatmapRow_spec (s0 : AppState) (cm pm : List ℝ) (yi : ℕ)
    (hxl : s0.heatN ≤ s0.spot_axis.length) (hyl : yi < s0.vol_axis.length)
    (hc : yi * s0.heatN + s0.heatN ≤ cm.length) (hp : yi * s0.heatN + s0.heatN ≤ pm.length) :
    ∃ cm' pm', heatmapRow { s0 with call_map := cm, put_map := pm } yi =
        some { s0 with call_map := cm', put_map := pm' } ∧
      FilledFrom cm cm' (yi * s0.heatN) (yi * s0.heatN + s0.heatN) (cellCall s0) ∧
      FilledFrom pm pm' (yi * s0.heatN) (yi * s0.heatN + s0.heatN) (cellPut s0) := by
  have h := foldlM_range_some (heatmapCell yi)
    (fun k s => ∃ cm' pm', s = { s0 with call_map := cm', put_map := pm' } ∧
      FilledFrom cm cm' (yi * s0.heatN) (yi * s0.heatN + k) (cellCall s0) ∧
      FilledFrom pm pm' (yi * s0.heatN) (yi * s0.heatN + k) (cellPut s0))
    s0.heatN { s0 with call_map := cm, put_map := pm }
    ⟨cm, pm, rfl, filledFrom_refl _ _ _, filledFrom_refl _ _ _⟩
    (by
      rintro k s hk ⟨cm1, pm1, rfl, hf1, hf2⟩
      have hl1 : yi * s0.heatN + k < cm1.length := by rw [hf1.1]; omega
      have hl2 : yi * s0.heatN + k < pm1.length := by rw [hf2.1]; omega
      refine ⟨_, ?_, _, _, rfl, filledFrom_set hf1 (Nat.le_add_right _ _) hl1,
        filledFrom_set hf2 (Nat.le_add_right _ _) hl2⟩
      rw [heatmapCell_eq s0 cm1 pm1 yi k hk hxl hyl, writeAt_some _ hl1, writeAt_some _ hl2]
      rfl)
  obtain ⟨s', hs', cm', pm', rfl, hf1, hf2⟩ := h
  exact ⟨cm', pm', hs', hf1, hf2⟩

/-- The two nested loops on buffers of at least `heatN * heatN` elements: they succeed, keep
everything but the two maps, and overwrite exactly the first `heatN * heatN` entries. -/
theorem heatmapLoops_spec (s0 : AppState) (hxl : s0.heatN ≤ s0.spot_axis.length)
    (hyl : s0.heatN ≤ s0.vol_axis.length)
    (hc : s0.heatN * s0.heatN ≤ s0.call_map.length)
    (hp : s0.heatN * s0.heatN ≤ s0.put_map.length) :
    ∃ cm' pm', (List.range s0.heatN).foldlM heatmapRow s0 =
        some { s0 with call_map := cm', put_map := pm' } ∧
      FilledFrom s0.call_map cm' 0 (s0.heatN * s0.heatN) (cellCall s0) ∧
      FilledFrom s0.put_map pm' 0 (s0.heatN * s0.heatN) (cellPut s0) := by
  have h := foldlM_range_some heatmapRow
    (fun k s => ∃ cm' pm', s = { s0 with call_map := cm', put_map := pm' } ∧
      FilledFrom s0.call_map cm' 0 (k * s0.heatN) (cellCall s0) ∧
      FilledFrom s0.put_map pm' 0 (k * s0.heatN) (cellPut s0))
    s0.heatN s0
    ⟨s0.call_map, s0.put_map, rfl, by simpa using filledFrom_refl _ 0 _,
      by simpa using filledFrom_refl _ 0 _⟩
    (by
      rintro k s hk ⟨cm1, pm1, rfl, hf1, hf2⟩
      have hle : k * s0.heatN + s0.heatN ≤ s0.heatN * s0.heatN := by
        have : (k + 1) * s0.heatN ≤ s0.heatN * s0.heatN := Nat.mul_le_mul_right _ (by omega)
        rw [Nat.add_mul, Nat.one_mul] at this
        exact this
      obtain ⟨cm2, pm2, hrow, hg1, hg2⟩ := heatmapRow_spec s0 cm1 pm1 k hxl (by omega)
        (by rw [hf1.1]; omega) (by rw [hf2.1]; omega)
      refine ⟨_, hrow, cm2, pm2, rfl, ?_, ?_⟩
      · have := filledFrom_trans hf1 hg1 (Nat.zero_le _) (Nat.le_add_right _ _)
        rwa [Nat.add_mul, Nat.one_mul]
      · have := filledFrom_trans hf2 hg2 (Nat.zero_le _) (Nat.le_add_right _ _)
        rwa [Nat.add_mul, Nat.one_mul])
  obtain ⟨s', hs', cm', pm', rfl, hf1, hf2⟩ := h
  exact ⟨cm', pm', hs', hf1, hf2⟩

/-- The lambda `recompute_heatmaps` on maps of at least `heatN * heatN` elements: it succeeds,
replaces both axes by the result of `linspace`, and overwrites exactly the first
`heatN * heatN` entries of both maps. -/
theorem recompute_heatmaps_spec (st : AppState)
    (hc : st.heatN * st.heatN ≤ st.call_map.length)
    (hp : st.heatN * st.heatN ≤ st.put_map.length) :
    ∃ cm' pm', recompute_heatmaps st =
        some { st with spot_axis := linspace st.spot_min st.spot_max st.heatN
                       vol_axis := linspace st.vol_min st.vol_max st.heatN
                       call_map := cm', put_map := pm' } ∧
      FilledFrom st.call_map cm' 0 (st.heatN * st.heatN)
        (cellCall { st with spot_axis := linspace st.spot_min st.spot_max st.heatN
                            vol_axis := linspace st.vol_min st.vol_max st.heatN }) ∧
      FilledFrom st.put_map pm' 0 (st.heatN * st.heatN)
        (cellPut { st with spot_axis := linspace st.spot_min st.spot_max st.heatN
                           vol_axis := linspace st.vol_min st.vol_max st.heatN }) := by
  obtain ⟨cm', pm', h, hf1, hf2⟩ := heatmapLoops_spec
    { st with spot_axis := linspace st.spot_min st.spot_max st.heatN
              vol_axis := linspace st.vol_min st.vol_max st.heatN }
    (by simp [linspace_length]) (by simp [linspace_length]) hc hp
  exact ⟨cm', pm', h, hf1, hf2⟩

/-- A loop whose body commutes with a map `g` on the state commutes with `g`. -/
theorem foldlM_comm {σ : Type} (g : σ → σ) (f : σ → ℕ → Option σ)
    (hfg : ∀ s x, f (g s) x = (f s x).map g) (l : List ℕ) (s : σ) :
    l.foldlM f (g s) = (l.foldlM f s).map g := by
  induction l generalizing s with
  | nil => simp
  | cons a l ih =>
    rw [List.foldlM_cons, List.foldlM_cons, hfg]
    cases h : f s a with
    | none => simp
    | some s' => simpa using ih s'

theorem heatmapCell_lock (b : Bool) (yi : ℕ) (s : AppState) (xi : ℕ) :
    heatmapCell yi { s with lock_strike_for_heatmap := b } xi =
      (heatmapCell yi s xi).map (fun s => { s with lock_strike_for_heatmap := b }) := by
  simp only [heatmapCell, cellInputs_eq, Option.bind_eq_bind, Option.pure_def]
  cases readAt s.spot_axis xi with
  | none => rfl
  | some sv =>
    cases readAt s.vol_axis yi with
    | none => rfl
    | some vv =>
      simp only [Option.some_bind]
      cases writeAt s.call_map (yi * s.heatN + xi)
          (toFloat (black_scholes_price
            { S := sv, K := s.inp.K, T := s.inp.T, v := vv, r := s.inp.r }).call) with
      | none => rfl
      | some cm =>
        simp only [Option.some_bind]
        cases writeAt s.put_map (yi * s.heatN + xi)
            (toFloat (black_scholes_price
              { S := sv, K := s.inp.K, T := s.inp.T, v := vv, r := s.inp.r }).put) with
        | none => rfl
        | some pm => rfl

theorem heatmapRow_lock (b : Bool) (s : AppState) (yi : ℕ) :
    heatmapRow { s with lock_strike_for_heatmap := b } yi =
      (heatmapRow s yi).map (fun s => { s with lock_strike_for_heatmap := b }) :=
  foldlM_comm (fun s : AppState => ({ s with lock_strike_for_heatmap := b } : AppState))
    (heatmapCell yi) (fun s x => heatmapCell_lock b yi s x) (List.range s.heatN) s

theorem recompute_heatmaps_lock (b : Bool) (st : AppState) :
    recompute_heatmaps { st with lock_strike_for_heatmap := b } =
      (recompute_heatmaps st).map (fun s => { s with lock_strike_for_heatmap := b }) :=
  foldlM_comm (fun s : AppState => ({ s with lock_strike_for_heatmap := b } : AppState))
    heatmapRow (fun s x => heatmapRow_lock b s x) (List.range st.heatN)
    { st with spot_axis := linspace st.spot_min st.spot_max st.heatN
              vol_axis := linspace st.vol_min st.vol_max st.heatN }

/-- Claim C10: for every base input, ranges, grid size and buffers, `recompute_heatmaps` run
with the check box set and run with the check box cleared yields the same `spot_axis`,
`vol_axis`, `call_map` and `put_map` (and goes out of range in the one run exactly when it does
in the other); and whatever the check box says, the parameter set priced for a cell is the base
input with only `S` and `v` replaced. -/
theorem lock_strike_has_no_effect (st : AppState) :
    (recompute_heatmaps { st with lock_strike_for_heatmap := true }).map buffers =
      (recompute_heatmaps { st with lock_strike_for_heatmap := false }).map buffers ∧
    ∀ (b : Bool) (s v : ℝ), cellInputs { st with lock_strike_for_heatmap := b } s v =
      { S := s, K := st.inp.K, T := st.inp.T, v := v, r := st.inp.r } := by
  refine ⟨?_, fun b s v => cellInputs_eq _ s v⟩
  rw [recompute_heatmaps_lock true st, recompute_heatmaps_lock false st]
  cases recompute_heatmaps st with
  | none => rfl
  | some s => rfl

/-! ## The frame loop -/

/-- The inner loop for row `yi` on maps of which one ends inside the row: the write at the
first missing index is out of range. -/
theorem heatmapRow_out_of_bounds (s0 : AppState) (cm pm : List ℝ) (yi x0 : ℕ)
    (hx0 : x0 < s0.heatN) (hxl : s0.heatN ≤ s0.spot_axis.length)
    (hyl : yi < s0.vol_axis.length)
    (hc : yi * s0.heatN + x0 ≤ cm.length) (hp : yi * s0.heatN + x0 ≤ pm.length)
    (hshort : cm.length = yi * s0.heatN + x0 ∨ pm.length = yi * s0.heatN + x0) :
    heatmapRow { s0 with call_map := cm, put_map := pm } yi = none := by
  refine foldlM_range_none (heatmapCell yi)
    (fun _ s => ∃ cm' pm', s = { s0 with call_map := cm', put_map := pm' } ∧
      cm'.length = cm.length ∧ pm'.length = pm.length)
    s0.heatN x0 hx0 { s0 with call_map := cm, put_map := pm } ⟨cm, pm, rfl, rfl, rfl⟩ ?_ ?_
  · rintro k s hk ⟨cm1, pm1, rfl, h1, h2⟩
    have hl1 : yi * s0.heatN + k < cm1.length := by omega
    have hl2 : yi * s0.heatN + k < pm1.length := by omega
    refine ⟨{ s0 with
        call_map := cm1.set (yi * s0.heatN + k) (cellCall s0 (yi * s0.heatN + k))
        put_map := pm1.set (yi * s0.heatN + k) (cellPut s0 (yi * s0.heatN + k)) }, ?_,
      cm1.set (yi * s0.heatN + k) (cellCall s0 (yi * s0.heatN + k)),
      pm1.set (yi * s0.heatN + k) (cellPut s0 (yi * s0.heatN + k)), rfl, ?_, ?_⟩
    · rw [heatmapCell_eq s0 cm1 pm1 yi k (by omega) hxl hyl, writeAt_some _ hl1,
        writeAt_some _ hl2]
      rfl
    · simpa using h1
    · simpa using h2
  · rintro s ⟨cm1, pm1, rfl, h1, h2⟩
    rw [heatmapCell_eq s0 cm1 pm1 yi x0 hx0 hxl hyl]
    by_cases hcm : cm1.length ≤ yi * s0.heatN + x0
    · rw [writeAt_none _ hcm]
      rfl
    · have hpm : pm1.length ≤ yi * s0.heatN + x0 := by omega
      rw [writeAt_some _ (by omega), writeAt_none _ hpm]
      rfl

/-- The lambda `recompute_heatmaps` on a map of fewer than `heatN * heatN` elements writes out
of range. -/
theorem recompute_heatmaps_out_of_bounds (st : AppState)
    (h : st.call_map.length < st.heatN * st.heatN ∨
      st.put_map.length < st.heatN * st.heatN) :
    recompute_heatmaps st = none := by
  have hL : min st.call_map.length st.put_map.length < st.heatN * st.heatN := by
    rcases h with h | h
    · exact lt_of_le_of_lt (min_le_left _ _) h
    · exact lt_of_le_of_lt (min_le_right _ _) h
  have hn : 0 < st.heatN := by
    rcases Nat.eq_zero_or_pos st.heatN with h0 | h0
    · rw [h0] at hL; simp at hL
    · exact h0
  have hy0 : min st.call_map.length st.put_map.length / st.heatN < st.heatN :=
    Nat.div_lt_of_lt_mul hL
  have hx0 : min st.call_map.length st.put_map.length % st.heatN < st.heatN :=
    Nat.mod_lt _ hn
  have hsplit : min st.call_map.length st.put_map.length / st.heatN * st.heatN +
      min st.call_map.length st.put_map.length % st.heatN =
      min st.call_map.length st.put_map.length := by
    rw [Nat.mul_comm]
    exact Nat.div_add_mod _ _
  have hshort : st.call_map.length = min st.call_map.length st.put_map.length ∨
      st.put_map.length = min st.call_map.length st.put_map.length := by
    rcases le_total st.call_map.length st.put_map.length with h1 | h1
    · exact Or.inl (min_eq_left h1).symm
    · exact Or.inr (min_eq_right h1).symm
  have hlec : min st.call_map.length st.put_map.length ≤ st.call_map.length := min_le_left _ _
  have hlep : min st.call_map.length st.put_map.length ≤ st.put_map.length := min_le_right _ _
  generalize min st.call_map.length st.put_map.length = L at *
  refine foldlM_range_none heatmapRow
    (fun _ s => ∃ cm' pm',
      s = { st with spot_axis := linspace st.spot_min st.spot_max st.heatN
                    vol_axis := linspace st.vol_min st.vol_max st.heatN
                    call_map := cm', put_map := pm' } ∧
      cm'.length = st.call_map.length ∧ pm'.length = st.put_map.length)
    st.heatN (L / st.heatN) hy0 _ ⟨st.call_map, st.put_map, rfl, rfl, rfl⟩ ?_ ?_
  · rintro k s hk ⟨cm1, pm1, rfl, h1, h2⟩
    have hle : k * st.heatN + st.heatN ≤ L / st.heatN * st.heatN := by
      have : (k + 1) * st.heatN ≤ L / st.heatN * st.heatN := Nat.mul_le_mul_right _ (by omega)
      rw [Nat.add_mul, Nat.one_mul] at this
      exact this
    obtain ⟨cm2, pm2, hrow, hg1, hg2⟩ := heatmapRow_spec
      { st with spot_axis := linspace st.spot_min st.spot_max st.heatN
                vol_axis := linspace st.vol_min st.vol_max st.heatN }
      cm1 pm1 k (by simp [linspace_length]) (by simp only [linspace_length]; omega)
      (by simp only []; omega) (by simp only []; omega)
    exact ⟨_, hrow, cm2, pm2, rfl, hg1.1.trans h1, hg2.1.trans h2⟩
  · rintro s ⟨cm1, pm1, rfl, h1, h2⟩
    exact heatmapRow_out_of_bounds
      { st with spot_axis := linspace st.spot_min st.spot_max st.heatN
                vol_axis := linspace st.vol_min st.vol_max st.heatN }
      cm1 pm1 (L / st.heatN) (L % st.heatN) hx0 (by simp [linspace_length])
      (by simp only [linspace_length]; omega) (by simp only []; omega) (by simp only []; omega)
      (by simp only []; omega)

/-- When `recompute_heatmaps` returns, the maps were large enough, their lengths and the grid
size are unchanged, and both axes hold `heatN` elements. -/
theorem recompute_heatmaps_sizes {st st' : AppState} (h : recompute_heatmaps st = some st') :
    st'.heatN = st.heatN ∧ st'.spot_axis.length = st.heatN ∧ st'.vol_axis.length = st.heatN ∧
    st'.call_map.length = st.call_map.length ∧ st'.put_map.length = st.put_map.length ∧
    st.heatN * st.heatN ≤ st.call_map.length ∧ st.heatN * st.heatN ≤ st.put_map.length := by
  by_cases hc : st.heatN * st.heatN ≤ st.call_map.length
  · by_cases hp : st.heatN * st.heatN ≤ st.put_map.length
    · obtain ⟨cm', pm', h', hf1, hf2⟩ := recompute_heatmaps_spec st hc hp
      rw [h'] at h
      cases h
      exact ⟨rfl, linspace_length _ _ _, linspace_length _ _ _, hf1.1, hf2.1, hc, hp⟩
    · rw [recompute_heatmaps_out_of_bounds st (Or.inr (not_le.mp hp))] at h
      cases h
  · rw [recompute_heatmaps_out_of_bounds st (Or.inl (not_le.mp hc))] at h
    cases h

theorem resize_length (xs : List ℝ) (n : ℕ) : (resize xs n).length = n := by
  simp only [resize, List.length_append, List.length_take, List.length_replicate]
  omega

/-- The widgets, the swaps and the check box leave the four buffers alone; the grid size is
what the slider says. -/
theorem widgets_fields (s : AppState) (ev : FrameEvents) :
    (applyCheckbox (swapRanges (applyWidgets s ev)) ev).heatN =
      widgetValue ev.slider_heatN s.heatN ∧
    (applyCheckbox (swapRanges (applyWidgets s ev)) ev).spot_axis = s.spot_axis ∧
    (applyCheckbox (swapRanges (applyWidgets s ev)) ev).vol_axis = s.vol_axis ∧
    (applyCheckbox (swapRanges (applyWidgets s ev)) ev).call_map = s.call_map ∧
    (applyCheckbox (swapRanges (applyWidgets s ev)) ev).put_map = s.put_map := by
  unfold applyCheckbox swapRanges applyWidgets
  simp only []
  split_ifs <;> exact ⟨rfl, rfl, rfl, rfl, rfl⟩

theorem resizeBuffers_sizes (s : AppState) : SizesOk (resizeBuffers s) := by
  unfold SizesOk resizeBuffers
  exact ⟨resize_length _ _, resize_length _ _, resize_length _ _, resize_length _ _⟩

theorem recompute_heatmaps_sizesOk {st st' : AppState} (hs : SizesOk st)
    (h : recompute_heatmaps st = some st') : SizesOk st' := by
  obtain ⟨h1, h2, h3, h4, h5, -, -⟩ := recompute_heatmaps_sizes h
  obtain ⟨-, -, g3, g4⟩ := hs
  refine ⟨?_, ?_, ?_, ?_⟩
  · rw [h2, h1]
  · rw [h3, h1]
  · rw [h4, g3, h1]
  · rw [h5, g4, h1]

theorem changedFlag_false {ev : FrameEvents} (h : changedFlag ev = false) :
    ev.slider_heatN = none := by
  unfold changedFlag widgetChanged at h
  simp only [Bool.false_or, Bool.or_eq_false_iff] at h
  have := h.1.1.1.1.2
  simpa using this

/-- The frame as two steps in sequence: the button, then the `if (changed)` block. -/
theorem frame_eq (s : AppState) (ev : FrameEvents) :
    frame s ev =
      (if ev.button_recompute = true then
          recompute_heatmaps (applyCheckbox (swapRanges (applyWidgets s ev)) ev)
        else some (applyCheckbox (swapRanges (applyWidgets s ev)) ev)).bind
        (fun y => if changedFlag ev = true then recompute_heatmaps (resizeBuffers y)
          else some y) := by
  unfold frame
  by_cases hb : ev.button_recompute = true
  · simp only [hb, if_true]
    rfl
  · simp only [hb, if_false]
    rfl

/-- Whenever a frame runs to its end, the buffer sizes at the end of the
frame are `heatN` for the axes and `heatN * heatN` for the maps. -/
theorem frame_preserves_sizes {s t : AppState} {ev : FrameEvents} (hs : SizesOk s)
    (h : frame s ev = some t) : SizesOk t := by
  obtain ⟨w1, w2, w3, w4, w5⟩ := widgets_fields s ev
  rw [frame_eq] at h
  obtain ⟨s2, hs2, hfin⟩ := Option.bind_eq_some.mp h
  by_cases hch : changedFlag ev = true
  · rw [if_pos hch] at hfin
    exact recompute_heatmaps_sizesOk (resizeBuffers_sizes s2) hfin
  · rw [if_neg hch] at hfin
    cases hfin
    have hsl := changedFlag_false (by simpa using hch)
    have hpre : SizesOk (applyCheckbox (swapRanges (applyWidgets s ev)) ev) := by
      unfold SizesOk
      rw [w1, w2, w3, w4, w5, hsl]
      exact hs
    by_cases hb : ev.button_recompute = true
    · rw [if_pos hb] at hs2
      exact recompute_heatmaps_sizesOk hpre hs2
    · rw [if_neg hb] at hs2
      cases hs2
      exact hpre

/-- A frame in which the button is not pressed, or in which the slider
does not enlarge the grid, makes every access in range and runs to its end. -/
theorem frame_in_bounds {s : AppState} {ev : FrameEvents} (hs : SizesOk s)
    (h : ev.button_recompute = true → widgetValue ev.slider_heatN s.heatN ≤ s.heatN) :
    ∃ t, frame s ev = some t ∧ SizesOk t := by
  obtain ⟨w1, w2, w3, w4, w5⟩ := widgets_fields s ev
  have hstep1 : ∃ s2, (if ev.button_recompute = true then
      recompute_heatmaps (applyCheckbox (swapRanges (applyWidgets s ev)) ev)
      else some (applyCheckbox (swapRanges (applyWidgets s ev)) ev)) = some s2 := by
    by_cases hb : ev.button_recompute = true
    · rw [if_pos hb]
      have hle := h hb
      have hsq : widgetValue ev.slider_heatN s.heatN * widgetValue ev.slider_heatN s.heatN ≤
          s.heatN * s.heatN := Nat.mul_le_mul hle hle
      obtain ⟨cm', pm', h', -, -⟩ := recompute_heatmaps_spec
        (applyCheckbox (swapRanges (applyWidgets s ev)) ev)
        (by rw [w1, w4, hs.2.2.1]; exact hsq) (by rw [w1, w5, hs.2.2.2]; exact hsq)
      exact ⟨_, h'⟩
    · rw [if_neg hb]
      exact ⟨_, rfl⟩
  obtain ⟨s2, hs2⟩ := hstep1
  have hstep2 : ∃ t, (if changedFlag ev = true then recompute_heatmaps (resizeBuffers s2)
      else some s2) = some t := by
    by_cases hch : changedFlag ev = true
    · rw [if_pos hch]
      have hr := resizeBuffers_sizes s2
      obtain ⟨cm', pm', h', -, -⟩ := recompute_heatmaps_spec (resizeBuffers s2)
        (le_of_eq hr.2.2.1.symm) (le_of_eq hr.2.2.2.symm)
      exact ⟨_, h'⟩
    · rw [if_neg hch]
      exact ⟨_, rfl⟩
  obtain ⟨t, ht⟩ := hstep2
  have hframe : frame s ev = some t := by
    rw [frame_eq, hs2]
    exact ht
  exact ⟨t, hframe, frame_preserves_sizes hs hframe⟩

/-- A frame in which the button is pressed while the slider enlarges the
grid calls `recompute_heatmaps` on the maps of the old size and writes out of range. -/
theorem frame_out_of_bounds {s : AppState} {ev : FrameEvents} (hs : SizesOk s)
    (hb : ev.button_recompute = true)
    (hgrow : s.heatN < widgetValue ev.slider_heatN s.heatN) :
    frame s ev = none := by
  obtain ⟨w1, w2, w3, w4, w5⟩ := widgets_fields s ev
  have hlt : s.heatN * s.heatN <
      widgetValue ev.slider_heatN s.heatN * widgetValue ev.slider_heatN s.heatN :=
    Nat.mul_lt_mul'' hgrow hgrow
  have hnone := recompute_heatmaps_out_of_bounds
    (applyCheckbox (swapRanges (applyWidgets s ev)) ev)
    (Or.inl (by rw [w1, w4, hs.2.2.1]; exact hlt))
  rw [frame_eq, if_pos hb, hnone]
  rfl

theorem frame_heatN {s t : AppState} {ev : FrameEvents} (h : frame s ev = some t) :
    t.heatN = widgetValue ev.slider_heatN s.heatN := by
  obtain ⟨w1, -, -, -, -⟩ := widgets_fields s ev
  rw [frame_eq] at h
  obtain ⟨s2, hs2, hfin⟩ := Option.bind_eq_some.mp h
  have h2 : s2.heatN = widgetValue ev.slider_heatN s.heatN := by
    by_cases hb : ev.button_recompute = true
    · rw [if_pos hb] at hs2
      rw [(recompute_heatmaps_sizes hs2).1, w1]
    · rw [if_neg hb] at hs2
      cases hs2
      exact w1
  by_cases hch : changedFlag ev = true
  · rw [if_pos hch] at hfin
    rw [(recompute_heatmaps_sizes hfin).1]
    exact h2
  · rw [if_neg hch] at hfin
    cases hfin
    exact h2

/-- The call of `recompute_heatmaps` in front of the frame loop succeeds. -/
theorem start_ok : ∃ s, recompute_heatmaps startState = some s ∧ SizesOk s ∧ s.heatN = 10 := by
  have hs : SizesOk startState := by
    simp [SizesOk, startState]
  obtain ⟨cm', pm', h, -, -⟩ := recompute_heatmaps_spec startState
    (le_of_eq hs.2.2.1.symm) (le_of_eq hs.2.2.2.symm)
  exact ⟨_, h, recompute_heatmaps_sizesOk hs h, (recompute_heatmaps_sizes h).1⟩

/-- In every reachable state the buffer sizes agree with the grid size,
and the grid size is inside the bounds of the slider. -/
theorem reachable_sizes {s : AppState} (h : Reachable s) :
    SizesOk s ∧ 5 ≤ s.heatN ∧ s.heatN ≤ 30 := by
  induction h with
  | start h0 =>
    obtain ⟨s0, h1, h2, h3⟩ := start_ok
    rw [h0] at h1
    cases h1
    exact ⟨h2, by omega, by omega⟩
  | next _ hev hf ih =>
    refine ⟨frame_preserves_sizes ih.1 hf, ?_⟩
    rw [frame_heatN hf]
    rename_i s0 t0 ev0 _
    cases hsl : ev0.slider_heatN with
    | none => simpa [widgetValue, hsl] using ih.2
    | some n => simpa [widgetValue, hsl] using hev n hsl

/-- Claim C9 fails on the code: from the state in which the frame loop is entered (grid size
`10`, maps of `100` elements), a frame in which the slider is moved to `30` and the button
"Recompute Heatmaps" is pressed calls `recompute_heatmaps` from the button handler before the
buffers are resized, and that call writes out of range. -/
theorem button_before_resize_writes_out_of_range :
    ∃ s, recompute_heatmaps startState = some s ∧ Reachable s ∧ SizesOk s ∧ s.heatN = 10 ∧
      SliderInRange { slider_heatN := some 30, button_recompute := true } ∧
      frame s { slider_heatN := some 30, button_recompute := true } = none := by
  obtain ⟨s, h1, h2, h3⟩ := start_ok
  refine ⟨s, h1, Reachable.start h1, h2, h3, ?_, ?_⟩
  · intro n hn
    simp only [Option.some.injEq] at hn
    omega
  · apply frame_out_of_bounds h2 rfl
    rw [h3]
    simp [widgetValue]

/-! ## Reference values -/

theorem poly_integral (x c : ℝ) :
    (∫ s in (0 : ℝ)..x, (1 - s ^ 2 / 2 + s ^ 4 / 8 - s ^ 6 / 48 + c * s ^ 8)) =
      x - x ^ 3 / 6 + x ^ 5 / 40 - x ^ 7 / 336 + c * x ^ 9 / 9 := by
  have h : ∀ s ∈ Set.uIcc (0 : ℝ) x,
      HasDerivAt (fun s : ℝ => s - s ^ 3 / 6 + s ^ 5 / 40 - s ^ 7 / 336 + c * s ^ 9 / 9)
        (1 - s ^ 2 / 2 + s ^ 4 / 8 - s ^ 6 / 48 + c * s ^ 8) s := by
    intro s _
    have h1 := hasDerivAt_id s
    have h3 := (hasDerivAt_pow 3 s).div_const 6
    have h5 := (hasDerivAt_pow 5 s).div_const 40
    have h7 := (hasDerivAt_pow 7 s).div_const 336
    have h9 := ((hasDerivAt_pow 9 s).const_mul c).div_const 9
    have := (((h1.sub h3).add h5).sub h7).add h9
    convert this using 1
    norm_num
    ring
  rw [intervalIntegral.integral_eq_sub_of_hasDerivAt h]
  · norm_num
  · apply Continuous.intervalIntegrable
    fun_prop

theorem exp_taylor4 (u : ℝ) (h : |u| ≤ 1) :
    1 + u + u ^ 2 / 2 + u ^ 3 / 6 - 5 / 96 * u ^ 4 ≤ Real.exp u ∧
    Real.exp u ≤ 1 + u + u ^ 2 / 2 + u ^ 3 / 6 + 5 / 96 * u ^ 4 := by
  have hb := Real.exp_bound h (n := 4) (by norm_num)
  have hs : (∑ m ∈ Finset.range 4, u ^ m / (m.factorial : ℝ)) = 1 + u + u ^ 2 / 2 + u ^ 3 / 6 := by
    simp [Finset.sum_range_succ, Nat.factorial]
  rw [hs] at hb
  have h4 : |u| ^ 4 = u ^ 4 := by
    rw [← abs_pow]
    exact abs_of_nonneg (by positivity)
  rw [h4] at hb
  have hc : ((Nat.succ 4 : ℕ) : ℝ) / ((Nat.factorial 4 : ℕ) * (4 : ℕ)) = 5 / 96 := by
    norm_num [Nat.factorial]
  have hb' : |Real.exp u - (1 + u + u ^ 2 / 2 + u ^ 3 / 6)| ≤ u ^ 4 * (5 / 96) := by
    rw [← hc]
    exact_mod_cast hb
  have := abs_le.mp hb'
  constructor <;> linarith [this.1, this.2]

/-- Enclosure of `∫₀ˣ exp (-s²/2) ds` for `0 ≤ x ≤ 1`. -/
theorem half_gauss_integral_bounds (x : ℝ) (h0 : 0 ≤ x) (h1 : x ≤ 1) :
    x - x ^ 3 / 6 + x ^ 5 / 40 - x ^ 7 / 336 - 5 / 13824 * x ^ 9 ≤
      (∫ s in (0 : ℝ)..x, Real.exp (-(s ^ 2) / 2)) ∧
    (∫ s in (0 : ℝ)..x, Real.exp (-(s ^ 2) / 2)) ≤
      x - x ^ 3 / 6 + x ^ 5 / 40 - x ^ 7 / 336 + 5 / 13824 * x ^ 9 := by
  have hpt : ∀ s ∈ Set.Icc (0 : ℝ) x,
      1 - s ^ 2 / 2 + s ^ 4 / 8 - s ^ 6 / 48 + (-(5 / 1536)) * s ^ 8 ≤ Real.exp (-(s ^ 2) / 2) ∧
      Real.exp (-(s ^ 2) / 2) ≤ 1 - s ^ 2 / 2 + s ^ 4 / 8 - s ^ 6 / 48 + (5 / 1536) * s ^ 8 := by
    intro s hs
    have hs1 : s ≤ 1 := le_trans hs.2 h1
    have hsq : s ^ 2 ≤ 1 := by nlinarith [hs.1]
    have habs : |-(s ^ 2) / 2| ≤ 1 := by
      rw [abs_le]
      constructor <;> nlinarith [sq_nonneg s]
    have := exp_taylor4 (-(s ^ 2) / 2) habs
    constructor
    · refine le_trans (le_of_eq ?_) this.1
      ring
    · refine le_trans this.2 (le_of_eq ?_)
      ring
  have hexp : IntervalIntegrable (fun s : ℝ => Real.exp (-(s ^ 2) / 2)) MeasureTheory.volume 0 x := by
    apply Continuous.intervalIntegrable
    fun_prop
  have hpoly : ∀ c : ℝ, IntervalIntegrable
      (fun s : ℝ => 1 - s ^ 2 / 2 + s ^ 4 / 8 - s ^ 6 / 48 + c * s ^ 8) MeasureTheory.volume 0 x := by
    intro c
    apply Continuous.intervalIntegrable
    fun_prop
  constructor
  · have := intervalIntegral.integral_mono_on h0 (hpoly (-(5 / 1536))) hexp
      (fun s hs => (hpt s hs).1)
    rw [poly_integral] at this
    refine le_trans (le_of_eq ?_) this
    ring
  · have := intervalIntegral.integral_mono_on h0 hexp (hpoly (5 / 1536))
      (fun s hs => (hpt s hs).2)
    rw [poly_integral] at this
    refine le_trans this (le_of_eq ?_)
    ring

theorem sqrt_two_pi_bounds : 2.50662 < Real.sqrt (2 * Real.pi) ∧ Real.sqrt (2 * Real.pi) < 2.50663 := by
  have h1 := Real.pi_gt_d6
  have h2 := Real.pi_lt_d6
  constructor
  · apply Real.lt_sqrt_of_sq_lt
    norm_num
    linarith
  · rw [Real.sqrt_lt' (by norm_num)]
    norm_num
    linarith

/-- The normal distribution function as `1/2 + (∫₀ˣ exp (-s²/2) ds) / √(2π)`. -/
theorem norm_cdf_eq (x : ℝ) :
    norm_cdf x = 1 / 2 + (∫ s in (0 : ℝ)..x, Real.exp (-(s ^ 2) / 2)) / Real.sqrt (2 * Real.pi) := by
  have h2 : Real.sqrt 2 ≠ 0 := (Real.sqrt_pos.mpr (by norm_num)).ne'
  have hpi : Real.sqrt Real.pi ≠ 0 := (Real.sqrt_pos.mpr Real.pi_pos).ne'
  have hsub := intervalIntegral.integral_comp_div (a := 0) (b := x)
    (fun t : ℝ => Real.exp (-(t ^ 2))) h2
  have hsq : ∀ s : ℝ, (s / Real.sqrt 2) ^ 2 = s ^ 2 / 2 := by
    intro s
    rw [div_pow, Real.sq_sqrt (by norm_num)]
  simp only [hsq, zero_div, smul_eq_mul] at hsub
  have hJ : (∫ s in (0 : ℝ)..x, Real.exp (-(s ^ 2) / 2)) =
      Real.sqrt 2 * ∫ t in (0 : ℝ)..(x / Real.sqrt 2), Real.exp (-(t ^ 2)) := by
    rw [← hsub]
    congr 1
    ext s
    congr 1
    ring
  have h20 : (2.0 : ℝ) = 2 := by norm_num
  unfold norm_cdf erf
  rw [hJ, Real.sqrt_mul (by norm_num), h20]
  field_simp
  ring

/-- Enclosure of the normal distribution function on `[0, 1]`. -/
theorem norm_cdf_enclosure (x : ℝ) (h0 : 0 ≤ x) (h1 : x ≤ 1) :
    1 / 2 + (x - x ^ 3 / 6 + x ^ 5 / 40 - x ^ 7 / 336 - 5 / 13824 * x ^ 9) / 2.50663 ≤
      norm_cdf x ∧
    norm_cdf x ≤
      1 / 2 + (x - x ^ 3 / 6 + x ^ 5 / 40 - x ^ 7 / 336 + 5 / 13824 * x ^ 9) / 2.50662 := by
  obtain ⟨hL, hU⟩ := half_gauss_integral_bounds x h0 h1
  obtain ⟨hc1, hc2⟩ := sqrt_two_pi_bounds
  have hJ : 0 ≤ ∫ s in (0 : ℝ)..x, Real.exp (-(s ^ 2) / 2) :=
    intervalIntegral.integral_nonneg h0 (fun _ _ => (Real.exp_pos _).le)
  have hcpos : 0 < Real.sqrt (2 * Real.pi) := by linarith
  rw [norm_cdf_eq]
  constructor
  · have a1 : (x - x ^ 3 / 6 + x ^ 5 / 40 - x ^ 7 / 336 - 5 / 13824 * x ^ 9) / 2.50663 ≤
        (∫ s in (0 : ℝ)..x, Real.exp (-(s ^ 2) / 2)) / 2.50663 :=
      div_le_div_of_nonneg_right hL (by norm_num)
    have a2 : (∫ s in (0 : ℝ)..x, Real.exp (-(s ^ 2) / 2)) / 2.50663 ≤
        (∫ s in (0 : ℝ)..x, Real.exp (-(s ^ 2) / 2)) / Real.sqrt (2 * Real.pi) :=
      div_le_div_of_nonneg_left hJ hcpos hc2.le
    linarith
  · have a1 : (∫ s in (0 : ℝ)..x, Real.exp (-(s ^ 2) / 2)) / 2.50662 ≤
        (x - x ^ 3 / 6 + x ^ 5 / 40 - x ^ 7 / 336 + 5 / 13824 * x ^ 9) / 2.50662 :=
      div_le_div_of_nonneg_right hU (by norm_num)
    have a2 : (∫ s in (0 : ℝ)..x, Real.exp (-(s ^ 2) / 2)) / Real.sqrt (2 * Real.pi) ≤
        (∫ s in (0 : ℝ)..x, Real.exp (-(s ^ 2) / 2)) / 2.50662 :=
      div_le_div_of_nonneg_left hJ (by norm_num) hc1.le
    linarith

theorem norm_cdf_035 : 0.63683 ≤ norm_cdf 0.35 ∧ norm_cdf 0.35 ≤ 0.636832 := by
  obtain ⟨h1, h2⟩ := norm_cdf_enclosure 0.35 (by norm_num) (by norm_num)
  constructor
  · refine le_trans ?_ h1
    norm_num
  · refine le_trans h2 ?_
    norm_num

theorem norm_cdf_015 : 0.559617 ≤ norm_cdf 0.15 ∧ norm_cdf 0.15 ≤ 0.559618 := by
  obtain ⟨h1, h2⟩ := norm_cdf_enclosure 0.15 (by norm_num) (by norm_num)
  constructor
  · refine le_trans ?_ h1
    norm_num
  · refine le_trans h2 ?_
    norm_num

theorem discount_005 : 0.951228 ≤ Real.exp (-0.05) ∧ Real.exp (-0.05) ≤ 0.951230 := by
  obtain ⟨h1, h2⟩ := exp_taylor4 (-0.05) (by rw [abs_le]; constructor <;> norm_num)
  constructor
  · refine le_trans ?_ h1
    norm_num
  · refine le_trans h2 ?_
    norm_num

/-- The prices of the default input as expressions in `norm_cdf` and `exp`: `d1 = 0.35`,
`d2 = 0.15`, discount factor `exp (-0.05)`. -/
theorem default_prices :
    (black_scholes_price {}).call =
      100 * norm_cdf 0.35 - 100 * Real.exp (-0.05) * norm_cdf 0.15 ∧
    (black_scholes_price {}).put =
      100 * Real.exp (-0.05) * norm_cdf (-0.15) - 100 * norm_cdf (-0.35) := by
  have hS : stdMax (100.0 : ℝ) 1e-12 = 100 := by rw [stdMax_eq_max]; norm_num
  have hT : stdMax (1.0 : ℝ) 1e-12 = 1 := by rw [stdMax_eq_max]; norm_num
  have hv : stdMax (0.2 : ℝ) 1e-12 = 0.2 := by rw [stdMax_eq_max]; norm_num
  have hd1 : (Real.log ((100 : ℝ) / 100) + (0.05 + 0.5 * 0.2 * 0.2) * 1) / (0.2 * Real.sqrt 1) =
      0.35 := by
    rw [div_self (by norm_num), Real.log_one, Real.sqrt_one]
    norm_num
  have hd2 : (0.35 : ℝ) - 0.2 * Real.sqrt 1 = 0.15 := by
    rw [Real.sqrt_one]
    norm_num
  have hr : (-(0.05 : ℝ) * 1) = -0.05 := by norm_num
  simp only [black_scholes_price, hS, hT, hv, hd1, hd2, hr]
  exact ⟨trivial, trivial⟩

/-- Claim C8: on the default input `S = 100`, `K = 100`, `T = 1`, `v = 0.2`, `r = 0.05`
`black_scholes_price` returns a call within `1e-3` of `10.4506` and a put within `1e-3` of
`5.5735`. -/
theorem reference_values :
    |(black_scholes_price {}).call - 10.4506| ≤ 1e-3 ∧
    |(black_scholes_price {}).put - 5.5735| ≤ 1e-3 := by
  obtain ⟨hcall, hput⟩ := default_prices
  obtain ⟨a1, b1⟩ := norm_cdf_035
  obtain ⟨a2, b2⟩ := norm_cdf_015
  obtain ⟨dl, dh⟩ := discount_005
  have m1 : norm_cdf (-0.35) = 1 - norm_cdf 0.35 := by
    have := norm_cdf_add_neg 0.35
    linarith
  have m2 : norm_cdf (-0.15) = 1 - norm_cdf 0.15 := by
    have := norm_cdf_add_neg 0.15
    linarith
  have p1 : Real.exp (-0.05) * norm_cdf 0.15 ≤ 0.951230 * 0.559618 :=
    mul_le_mul dh b2 (by linarith) (by norm_num)
  have p2 : 0.951228 * 0.559617 ≤ Real.exp (-0.05) * norm_cdf 0.15 :=
    mul_le_mul dl a2 (by norm_num) (by linarith)
  rw [hcall, hput, m1, m2, abs_le, abs_le]
  refine ⟨⟨?_, ?_⟩, ⟨?_, ?_⟩⟩ <;> norm_num at p1 p2 ⊢ <;> nlinarith [p1, p2, a1, b1, dl, dh]

end

end BlackScholes
